import Mathlib

/-!
# Verification of the GLF ID-card generator core (`app.py`)

Shallow embedding of the image-fitting, text-fitting and compositing logic
of the generator, together with proofs about the spec's claims.

Modelling conventions:
* A pixel is an abstract RGBA quadruple of naturals; an image is a width,
  a height and a total pixel function (coordinates outside the domain are
  irrelevant; image equality is extensional on the domain).
* Python float arithmetic is modelled bit-faithfully: `roundDouble`
  rounds an exact rational to the nearest IEEE binary64 value
  (round-to-nearest, ties to even, 53-bit significand, unbounded
  exponent — identical to binary64 away from overflow and subnormals,
  which dimension ratios of real images never reach).  Each Python float
  operation performs its exact rational operation followed by one
  `roundDouble`; CPython's int/int true division is correctly rounded,
  i.e. a single `roundDouble` of the exact quotient, and int operands of
  float operations are first converted by `roundDouble`.  Python `int()`
  truncates toward zero (`pyint`), Python `//` on ints is floor division
  (`Int.fdiv`).
* Library routines of PIL (resize, crop, paste, alpha_composite,
  text measurement and rasterization) and of cairosvg are modelled as
  total functions; genuinely opaque resampling/rasterization kernels are
  oracle parameters, constrained only where PIL documents a guarantee
  (e.g. an output size).
-/

set_option autoImplicit false

namespace GLF

/-- An RGBA pixel, each channel an abstract natural (0..255 in PIL). -/
structure Pixel where
  r : ℕ
  g : ℕ
  b : ℕ
  a : ℕ
  deriving DecidableEq, Repr

/-- The fully transparent black pixel, PIL's fill for out-of-bounds crops
and for a fresh `Image.new("RGBA", _, (0,0,0,0))` canvas. -/
def Pixel.clear : Pixel := ⟨0, 0, 0, 0⟩

/-- An in-memory RGBA image: width, height and a total pixel map.
Only coordinates `x < width`, `y < height` are meaningful. -/
structure Img where
  width : ℕ
  height : ℕ
  px : ℕ → ℕ → Pixel

/-- Pixel-for-pixel equality of two images: same dimensions and equal
pixels everywhere on the domain. -/
def Img.equiv (A B : Img) : Prop :=
  A.width = B.width ∧ A.height = B.height ∧
    ∀ x y, x < A.width → y < A.height → A.px x y = B.px x y

/-- Model of `Image.new("RGBA", (w, h), (0,0,0,0))`: a transparent canvas. -/
def Img.transparent (w h : ℕ) : Img :=
  ⟨w, h, fun _ _ => Pixel.clear⟩

/-- Model of PIL `Image.crop((l, t, r, b))`: the result has size
`(r - l) × (b - t)`; pixels whose source coordinate falls outside the
source image are filled with transparent black (PIL pads). -/
def Img.crop (img : Img) (l t r b : ℤ) : Img :=
  { width := (r - l).toNat
    height := (b - t).toNat
    px := fun x y =>
      let sx : ℤ := l + x
      let sy : ℤ := t + y
      if 0 ≤ sx ∧ sx < img.width ∧ 0 ≤ sy ∧ sy < img.height then
        img.px sx.toNat sy.toNat
      else Pixel.clear }

/-- Python `int()` on a real value: truncation toward zero. -/
def pyint (q : ℚ) : ℤ :=
  if 0 ≤ q then ⌊q⌋ else ⌈q⌉

/-- Model of PIL `Image.resize(size, LANCZOS)`, parametrized by the
resampling kernel `resample`.  PIL returns a plain copy when the
requested size equals the current size (identity short-circuit in
`Image.resize`); otherwise the kernel runs. -/
def resize (resample : Img → ℕ → ℕ → Img) (img : Img) (w h : ℕ) : Img :=
  if img.width = w ∧ img.height = h then img else resample img w h

/-- A resampling kernel is admissible when it honors the requested
output size, as PIL's resampling filters all do. -/
def SizedKernel (resample : Img → ℕ → ℕ → Img) : Prop :=
  ∀ img w h, (resample img w h).width = w ∧ (resample img w h).height = h

/-- Round-half-to-even of a rational to an integer, the tie-breaking
rule of IEEE binary64. -/
def roundHalfEven (m : ℚ) : ℤ :=
  if m - ⌊m⌋ < 1 / 2 then ⌊m⌋
  else if 1 / 2 < m - ⌊m⌋ then ⌊m⌋ + 1
  else if ⌊m⌋ % 2 = 0 then ⌊m⌋ else ⌊m⌋ + 1

/-- The value of the IEEE binary64 double nearest to the exact rational
`q` (round-to-nearest, ties to even): the significand is scaled to the
53-bit window `[2^52, 2^53]` determined by `⌊log₂ |q|⌋` and rounded
half-to-even.  The exponent is unbounded (no overflow or subnormal
range), so this agrees with binary64 on the whole normal range, which
contains every value the program's dimension arithmetic produces for
real image sizes. -/
def roundDouble (q : ℚ) : ℚ :=
  if q = 0 then 0
  else if 0 < q then
    (roundHalfEven (q * 2 ^ ((52 : ℤ) - Int.log 2 q)) : ℚ) / 2 ^ ((52 : ℤ) - Int.log 2 q)
  else
    -((roundHalfEven (-q * 2 ^ ((52 : ℤ) - Int.log 2 (-q))) : ℚ) / 2 ^ ((52 : ℤ) - Int.log 2 (-q)))

/-- CPython conversion of an int to a float: the nearest double. -/
def toDouble (n : ℕ) : ℚ := roundDouble (n : ℚ)

/-- Lines 57–68 of `app.py` (`fit_image_to_frame`): the scaled size
`(new_width, new_height)` computed from the original size and the frame
size via the IEEE-double ratios `img_ratio = original_w / original_h`
and `frame_ratio = frame_w / frame_h` (each an int/int true division,
correctly rounded), with one rounding per float multiplication/division
and Python `int()` truncation of the result. -/
def fitScaledSize (ow oh fw fh : ℕ) : ℕ × ℕ :=
  let imgRatio : ℚ := roundDouble ((ow : ℚ) / (oh : ℚ))
  let frameRatio : ℚ := roundDouble ((fw : ℚ) / (fh : ℚ))
  if frameRatio < imgRatio then
    ((pyint (roundDouble (toDouble fh * imgRatio))).toNat, fh)
  else
    (fw, (pyint (roundDouble (toDouble fw / imgRatio))).toNat)

/-- `fit_image_to_frame` (lines 53–75 of `app.py`): cover-fit, i.e.
scale so one dimension matches the frame and the other overhangs, then
center-crop to exactly `frame_w × frame_h`.  `//` is Python floor
division. -/
def fit_image_to_frame (resample : Img → ℕ → ℕ → Img) (img : Img)
    (frame_w frame_h : ℕ) : Img :=
  let s := fitScaledSize img.width img.height frame_w frame_h
  let r := resize resample img s.1 s.2
  let left : ℤ := ((s.1 : ℤ) - (frame_w : ℤ)).fdiv 2
  let top : ℤ := ((s.2 : ℤ) - (frame_h : ℤ)).fdiv 2
  r.crop left top (left + frame_w) (top + frame_h)

/-- Rounding to the nearest integer, as the spec's `round(...)` reads
(half rounds up; the distinction from Python's half-to-even never matters
at the concrete inputs considered below). -/
def spec_round (q : ℚ) : ℤ :=
  ⌊q + 1 / 2⌋

/-! ### Text measurement and the fit-text size search -/

/-- The fit test of `estimate_font_size_pil`: the measured text width and
height both fit the allowed box dimensions
(`text_width <= allowed_width and text_height <= allowed_height`). -/
def fitsBox (allowed_width allowed_height : ℤ) (w h : ℕ) : Bool :=
  ((w : ℤ) ≤ allowed_width) && ((h : ℤ) ≤ allowed_height)

/-- The `while new_size >= min_font_size` loop of `estimate_font_size_pil`
(lines 108–115 of `app.py`): measure at the current size; on a fit return
it with its measured dimensions, otherwise decrement by one.  `none`
corresponds to the loop running out (Python exits when the size drops
below the floor); the separate base case at 0 mirrors the size going
negative when `min_font_size` is 0. -/
def sizeSearchLoop (measure : ℕ → ℕ × ℕ) (allowed_width allowed_height : ℤ)
    (min_font_size : ℕ) : ℕ → Option (ℕ × ℕ × ℕ)
  | 0 =>
    if 0 < min_font_size then none
    else
      let m := measure 0
      if fitsBox allowed_width allowed_height m.1 m.2 then some (0, m.1, m.2) else none
  | n + 1 =>
    if n + 1 < min_font_size then none
    else
      let m := measure (n + 1)
      if fitsBox allowed_width allowed_height m.1 m.2 then some (n + 1, m.1, m.2)
      else sizeSearchLoop measure allowed_width allowed_height min_font_size n

/-- `estimate_font_size_pil` (lines 81–120 of `app.py`), with the PIL
`draw.textbbox` measurement of the fixed text and font abstracted as the
oracle `measure : font size ↦ (text_width, text_height)`.  Returns the
chosen size together with the dimensions measured at it.  Start at
`max_font_size`; accept it if it fits; otherwise compute the width and
height scale factors (`1.0` when the corresponding measured dimension is
not positive), take the smaller, truncate `max_font_size * scale` with
Python `int()`, clamp from below by `min_font_size`, then run the
decrement loop; if the loop fails, fall back to `min_font_size`. -/
def estimate_font_size_pil (measure : ℕ → ℕ × ℕ) (max_font_size : ℕ)
    (allowed_width allowed_height : ℤ) (min_font_size : ℕ) : ℕ × ℕ × ℕ :=
  let m0 := measure max_font_size
  if fitsBox allowed_width allowed_height m0.1 m0.2 then (max_font_size, m0.1, m0.2)
  else
    let width_scale : ℚ := if 0 < m0.1 then (allowed_width : ℚ) / (m0.1 : ℚ) else 1
    let height_scale : ℚ := if 0 < m0.2 then (allowed_height : ℚ) / (m0.2 : ℚ) else 1
    let scale := min width_scale height_scale
    let new_size := max min_font_size (pyint ((max_font_size : ℚ) * scale)).toNat
    match sizeSearchLoop measure allowed_width allowed_height min_font_size new_size with
    | some r => r
    | none =>
      let mf := measure min_font_size
      (min_font_size, mf.1, mf.2)

/-! ### Compositing primitives (models of PIL operations) -/

/-- Model of the per-pixel blend PIL applies for `paste` with an RGBA
mask (and for compositing freshly drawn glyphs): the overlay's alpha
weighs overlay against base.  Claims below never depend on the exact
formula, only on where it is applied. -/
def maskBlend (bg fg : Pixel) : Pixel :=
  ⟨(fg.r * fg.a + bg.r * (255 - fg.a)) / 255,
    (fg.g * fg.a + bg.g * (255 - fg.a)) / 255,
    (fg.b * fg.a + bg.b * (255 - fg.a)) / 255,
    (fg.a * 255 + bg.a * (255 - fg.a)) / 255⟩

/-- Model of `base.paste(overlay, (x0, y0))` without a mask: overlay
pixels replace base pixels on the overlay's rectangle (clipped to the
base); every other pixel is untouched. -/
def Img.paste (base overlay : Img) (x0 y0 : ℤ) : Img :=
  { base with
    px := fun x y =>
      if x0 ≤ (x : ℤ) ∧ (x : ℤ) < x0 + overlay.width ∧
          y0 ≤ (y : ℤ) ∧ (y : ℤ) < y0 + overlay.height then
        overlay.px ((x : ℤ) - x0).toNat ((y : ℤ) - y0).toNat
      else base.px x y }

/-- Model of `base.paste(overlay, (x0, y0), overlay)` with the overlay as
its own RGBA mask: inside the overlay's rectangle pixels are blended
through the overlay's alpha; outside it the base is untouched. -/
def Img.pasteMask (base overlay : Img) (x0 y0 : ℤ) : Img :=
  { base with
    px := fun x y =>
      if x0 ≤ (x : ℤ) ∧ (x : ℤ) < x0 + overlay.width ∧
          y0 ≤ (y : ℤ) ∧ (y : ℤ) < y0 + overlay.height then
        maskBlend (base.px x y)
          (overlay.px ((x : ℤ) - x0).toNat ((y : ℤ) - y0).toNat)
      else base.px x y }

/-- Model of Porter–Duff source-over on premultiplied-free RGBA, standing
in for PIL `Image.alpha_composite(bg, fg)` (which requires equally sized
inputs; the result keeps the background's size). -/
def alphaComposite (bg fg : Img) : Img :=
  ⟨bg.width, bg.height, fun x y => maskBlend (bg.px x y) (fg.px x y)⟩

/-! ### Script classification and input validation -/

/-- Membership in the character class of the regex on line 42 of
`app.py`: ASCII letters, digits, space, period, comma, apostrophe
(U+0027), right single quotation mark (U+2019), hyphen.  Written over
code points to match the regex ranges literally. -/
def isEnglishChar (c : Char) : Bool :=
  (65 ≤ c.toNat && c.toNat ≤ 90) || (97 ≤ c.toNat && c.toNat ≤ 122) ||
    (48 ≤ c.toNat && c.toNat ≤ 57) || c.toNat = 32 || c.toNat = 46 ||
    c.toNat = 44 || c.toNat = 39 || c.toNat = 8217 || c.toNat = 45

/-- `is_english_text` (lines 41–42 of `app.py`):
`re.fullmatch` of one-or-more class characters against `text or ""`
succeeds exactly when the string is nonempty and every character lies in
the class (the `+` quantifier rejects the empty string). -/
def is_english_text (s : String) : Bool :=
  !s.isEmpty && s.toList.all isEnglishChar

/-- The character set as the spec's words give it: Latin letters, digits,
space, period, comma, apostrophe, and hyphen — the ASCII apostrophe only,
and with no nonemptiness side condition attached. -/
def specSimpleChar (c : Char) : Bool :=
  (65 ≤ c.toNat && c.toNat ≤ 90) || (97 ≤ c.toNat && c.toNat ≤ 122) ||
    (48 ≤ c.toNat && c.toNat ≤ 57) || c.toNat = 32 || c.toNat = 46 ||
    c.toNat = 44 || c.toNat = 39 || c.toNat = 45

/-- The spec's character set amended by the code's extra member, the
right single quotation mark U+2019. -/
def amendedSimpleChar (c : Char) : Bool :=
  specSimpleChar c || c.toNat = 8217

/-- The whitespace characters recognized by the model of Python
`str.strip()` (space, tab, line feed, vertical tab, form feed, carriage
return).  Python additionally strips other Unicode whitespace; the model
restricts attention to this ASCII core. -/
def pyWhitespace (c : Char) : Bool :=
  c.toNat = 32 || c.toNat = 9 || c.toNat = 10 ||
    c.toNat = 11 || c.toNat = 12 || c.toNat = 13

/-- Model of `not text.strip()`: the string is empty or consists solely
of whitespace. -/
def pyStripEmpty (s : String) : Bool :=
  s.toList.all pyWhitespace

/-! ### Configuration constants (lines 19–35 of `app.py`) -/

def TEMPLATE_PATH : String := "assets/template.png"

def SLOT_X : ℕ := 330
def SLOT_Y : ℕ := 210
def SLOT_W : ℕ := 420
def SLOT_H : ℕ := 470

/-- `NAME_BOX` as `(x1, x2, y1, y2)`. -/
def NAME_BOX : ℤ × ℤ × ℤ × ℤ := (285, 795, 705, 785)

/-- `DESG_BOX` as `(x1, x2, y1, y2)`. -/
def DESG_BOX : ℤ × ℤ × ℤ × ℤ := (357, 722, 807, 855)

def NAME_FONT_EN : String := "assets/Poppins-SemiBold.ttf"
def NAME_FONT_HI : String := "assets/NotoSansDevanagari-SemiBold.ttf"
def DESG_FONT_EN : String := "assets/Poppins-Medium.ttf"
def DESG_FONT_HI : String := "assets/NotoSansDevanagari-Medium.ttf"

/-! ### Oracles for the opaque library kernels -/

/-- The opaque library kernels the pipeline depends on, as explicit
deterministic functions:
`resample` is PIL's LANCZOS resampling; `exifT` is
`ImageOps.exif_transpose`; `measure text font size` is the
`draw.textbbox` width/height of the text; `glyph text font size color`
is the raster PIL draws for the text; `svg text font size color w h` is
the cairosvg rasterization of the generated SVG document;
`encodePNG` is PIL's PNG serializer. -/
structure Oracles where
  resample : Img → ℕ → ℕ → Img
  exifT : Img → Img
  measure : String → String → ℕ → ℕ × ℕ
  glyph : String → String → ℕ → ℕ × ℕ × ℕ → Img
  svg : String → String → ℕ → ℕ × ℕ × ℕ → ℕ → ℕ → Img
  encodePNG : Img → List ℕ

/-- `render_text_svg_to_image` (lines 122–164 of `app.py`).  With
cairosvg available, the generated SVG document declares
`width=box_w height=box_h`, so the rasterized PNG has exactly the box
size (the pixel content is the opaque `svg` oracle).  Without it, the
Pillow fallback creates a transparent `box_w × box_h` canvas and draws
the text at `((box_w - text_w)//2, (box_h - text_h)//2)` with the
measured dimensions (`//` is Python floor division). -/
def render_text_svg_to_image (o : Oracles) (cairo : Bool)
    (text font_path : String) (font_size : ℕ) (fill : ℕ × ℕ × ℕ)
    (box_w box_h : ℕ) : Img :=
  if cairo then
    ⟨box_w, box_h, (o.svg text font_path font_size fill box_w box_h).px⟩
  else
    let m := o.measure text font_path font_size
    let x : ℤ := ((box_w : ℤ) - (m.1 : ℤ)).fdiv 2
    let y : ℤ := ((box_h : ℤ) - (m.2 : ℤ)).fdiv 2
    (Img.transparent box_w box_h).pasteMask
      (o.glyph text font_path font_size fill) x y

/-- `paste_svg_text_box` (lines 166–183 of `app.py`): estimate a fitting
font size for the box, render the text at the box's size, and paste the
rendering (as its own mask) at the box's top-left corner. -/
def paste_svg_text_box (o : Oracles) (cairo : Bool) (base_image : Img)
    (text font_path : String) (max_font_size : ℕ)
    (box_x1 box_x2 box_y1 box_y2 : ℤ) (text_color : ℕ × ℕ × ℕ) : Img :=
  let allowed_w := box_x2 - box_x1
  let allowed_h := box_y2 - box_y1
  let est := estimate_font_size_pil (o.measure text font_path) max_font_size
    allowed_w allowed_h 6
  let rendered := render_text_svg_to_image o cairo text font_path est.1
    text_color allowed_w.toNat allowed_h.toNat
  base_image.pasteMask rendered box_x1 box_y1

/-! ### The Generate button handler (lines 197–264 of `app.py`) -/

/-- Side effects the claims track: opening the template file and
decoding the uploaded photo. -/
inductive Effect where
  | readTemplate : Effect
  | decodePhoto : Effect
  deriving DecidableEq, Repr

/-- One generation request: the uploaded photo (already as the image its
bytes decode to, `none` when no file was uploaded), the two text fields,
and the template asset (with its existence flag for `os.path.exists`). -/
structure GenInput where
  uploaded : Option Img
  name : String
  desg : String
  templateExists : Bool
  template : Img

/-- What one click of Generate produces: whether `st.error` fired, which
tracked effects ran, the composed image and PNG bytes offered for
preview/download (if any), and whether the cairosvg fallback warning was
shown. -/
structure GenOutput where
  errorShown : Bool
  effects : List Effect
  image : Option Img
  png : Option (List ℕ)
  warningShown : Bool

/-- The Generate-button handler: validation guards in source order
(photo present, name nonblank, designation nonblank, template file
exists), then the composition pipeline — cover-fit the photo into the
slot, paste onto a transparent canvas, alpha-composite the template over
it, pick fonts per field by script classification, render and paste the
name box then the designation box, and serialize to PNG.  The warning
fires exactly when cairosvg is unavailable. -/
def generateHandler (o : Oracles) (cairo : Bool) (inp : GenInput) : GenOutput :=
  match inp.uploaded with
  | none => ⟨true, [], none, none, false⟩
  | some up =>
    if pyStripEmpty inp.name then ⟨true, [], none, none, false⟩
    else if pyStripEmpty inp.desg then ⟨true, [], none, none, false⟩
    else if !inp.templateExists then ⟨true, [], none, none, false⟩
    else
      let id_card := inp.template
      let person_img := o.exifT up
      let fitted_img := fit_image_to_frame o.resample person_img SLOT_W SLOT_H
      let background :=
        (Img.transparent id_card.width id_card.height).paste fitted_img SLOT_X SLOT_Y
      let final0 := alphaComposite background id_card
      let name_font_path := if is_english_text inp.name then NAME_FONT_EN else NAME_FONT_HI
      let desg_font_path := if is_english_text inp.desg then DESG_FONT_EN else DESG_FONT_HI
      let final1 := paste_svg_text_box o cairo final0 inp.name name_font_path 56
        NAME_BOX.1 NAME_BOX.2.1 NAME_BOX.2.2.1 NAME_BOX.2.2.2 (255, 255, 255)
      let final2 := paste_svg_text_box o cairo final1 inp.desg desg_font_path 30
        DESG_BOX.1 DESG_BOX.2.1 DESG_BOX.2.2.1 DESG_BOX.2.2.2 (0, 0, 0)
      ⟨false, [Effect.readTemplate, Effect.decodePhoto], some final2,
        some (o.encodePNG final2), !cairo⟩

/-! ### Concrete instances for witnesses -/

/-- A trivially admissible resampling kernel, used to instantiate the
oracle in concrete witnesses. -/
def constKernel : Img → ℕ → ℕ → Img := fun _ w h => Img.transparent w h

/-- A 1×1 sample image for witnesses. -/
def unitImg : Img := ⟨1, 1, fun _ _ => ⟨7, 7, 7, 255⟩⟩

/-- An admissible kernel that resamples by reading the source pixel at
the same coordinates — enough to propagate pixel content through a
resize, as any real filter does. -/
def idKernel : Img → ℕ → ℕ → Img := fun img w h => ⟨w, h, img.px⟩

/-- A fully opaque white 1×93 image, the concrete input on which the
float-rounding anomalies of the cover-fit become visible. -/
def whiteCol : Img := ⟨1, 93, fun _ _ => ⟨255, 255, 255, 255⟩⟩

/-- Concrete oracles for witnesses: square text measurement, transparent
rasters, and a size-recording PNG encoder. -/
def sampleOracles : Oracles where
  resample := constKernel
  exifT := id
  measure := fun _ _ s => (s, s)
  glyph := fun _ _ s _ => ⟨s, s, fun _ _ => ⟨1, 1, 1, 255⟩⟩
  svg := fun _ _ _ _ w h => Img.transparent w h
  encodePNG := fun img => [img.width, img.height]

/-- A concrete valid generation request for witnesses. -/
def sampleInput : GenInput where
  uploaded := some unitImg
  name := "Asha Rao"
  desg := "Lead Engineer"
  templateExists := true
  template := Img.transparent 1000 900

theorem pyint_of_nonneg {q : ℚ} (h : 0 ≤ q) : pyint q = ⌊q⌋ := by
  simp [pyint, h]

/-- Round-half-even never moves a value down by more than one half. -/
theorem roundHalfEven_ge (m : ℚ) : m - 1 / 2 ≤ (roundHalfEven m : ℚ) := by
  have h0 : ((⌊m⌋ : ℚ)) ≤ m := Int.floor_le m
  have h1 : m < (⌊m⌋ : ℚ) + 1 := Int.lt_floor_add_one m
  unfold roundHalfEven
  split_ifs with ha hb hc <;> push_cast <;> linarith

/-- Round-half-even never moves a value up by more than one half. -/
theorem roundHalfEven_le (m : ℚ) : (roundHalfEven m : ℚ) ≤ m + 1 / 2 := by
  have h0 : ((⌊m⌋ : ℚ)) ≤ m := Int.floor_le m
  have h1 : m < (⌊m⌋ : ℚ) + 1 := Int.lt_floor_add_one m
  unfold roundHalfEven
  split_ifs with ha hb hc <;> push_cast <;> linarith

/-- Characterization of `Int.log 2` by an enclosing binade, for
evaluating `roundDouble` at concrete points. -/
theorem int_log_two_eq {q : ℚ} {e : ℤ} (h0 : 0 < q) (h1 : (2 : ℚ) ^ e ≤ q)
    (h2 : q < (2 : ℚ) ^ (e + 1)) : Int.log 2 q = e := by
  have hc : (((2 : ℕ) : ℚ)) = (2 : ℚ) := by norm_num
  have hle : e ≤ Int.log 2 q :=
    (Int.zpow_le_iff_le_log one_lt_two h0).mp (by rw [hc]; exact h1)
  have hlt : Int.log 2 q < e + 1 :=
    (Int.lt_zpow_iff_log_lt one_lt_two h0).mp (by rw [hc]; exact h2)
  omega

/-- Unfolds `roundDouble` at a point whose binade is known. -/
theorem roundDouble_eval {q : ℚ} {e : ℤ} (h0 : 0 < q) (h1 : (2 : ℚ) ^ e ≤ q)
    (h2 : q < (2 : ℚ) ^ (e + 1)) :
    roundDouble q =
      (roundHalfEven (q * 2 ^ ((52 : ℤ) - e)) : ℚ) / 2 ^ ((52 : ℤ) - e) := by
  unfold roundDouble
  rw [if_neg (ne_of_gt h0), if_pos h0, int_log_two_eq h0 h1 h2]

/-- The relative error of rounding to the nearest double is at most
`2⁻⁵³` (one half ulp of a normalized significand). -/
theorem roundDouble_bounds {q : ℚ} (h : 0 < q) :
    q * (1 - 1 / 2 ^ 53) ≤ roundDouble q ∧ roundDouble q ≤ q * (1 + 1 / 2 ^ 53) := by
  unfold roundDouble
  rw [if_neg (ne_of_gt h), if_pos h]
  have hc : (((2 : ℕ) : ℚ)) = (2 : ℚ) := by norm_num
  have h2e : (2 : ℚ) ^ Int.log 2 q ≤ q := by
    rw [← hc]
    exact Int.zpow_log_le_self one_lt_two h
  set e := Int.log 2 q
  have hpow : (0 : ℚ) < (2 : ℚ) ^ ((52 : ℤ) - e) := by positivity
  have hge := roundHalfEven_ge (q * 2 ^ ((52 : ℤ) - e))
  have hle := roundHalfEven_le (q * 2 ^ ((52 : ℤ) - e))
  have key : (2 : ℚ) ^ (52 : ℕ) ≤ q * 2 ^ ((52 : ℤ) - e) := by
    have hsplit : (2 : ℚ) ^ (52 : ℕ) = 2 ^ e * 2 ^ ((52 : ℤ) - e) := by
      rw [← zpow_add₀ (by norm_num : (2 : ℚ) ≠ 0)]
      norm_num
    rw [hsplit]
    exact mul_le_mul_of_nonneg_right h2e (le_of_lt hpow)
  constructor
  · rw [le_div_iff₀ hpow]
    have hexp : q * (1 - 1 / 2 ^ 53) * 2 ^ ((52 : ℤ) - e) =
        q * 2 ^ ((52 : ℤ) - e) - q * 2 ^ ((52 : ℤ) - e) * (1 / 2 ^ 53) := by
      ring
    rw [hexp]
    have : (2 : ℚ) ^ (52 : ℕ) * (1 / 2 ^ 53) = 1 / 2 := by norm_num
    nlinarith [key, hge]
  · rw [div_le_iff₀ hpow]
    have hexp : q * (1 + 1 / 2 ^ 53) * 2 ^ ((52 : ℤ) - e) =
        q * 2 ^ ((52 : ℤ) - e) + q * 2 ^ ((52 : ℤ) - e) * (1 / 2 ^ 53) := by
      ring
    rw [hexp]
    nlinarith [key, hle]

/-- A nearest double of a positive value is positive. -/
theorem roundDouble_pos {q : ℚ} (h : 0 < q) : 0 < roundDouble q :=
  lt_of_lt_of_le (by positivity) (roundDouble_bounds h).1

/-! Concrete double values, each verified by exact rational arithmetic
on the scaled significand. -/

theorem roundDouble_one : roundDouble (1 : ℚ) = 1 := by
  rw [@roundDouble_eval (1 : ℚ) 0 one_pos (by norm_num) (by norm_num)]
  unfold roundHalfEven
  norm_num

theorem roundDouble_three : roundDouble (3 : ℚ) = 3 := by
  rw [@roundDouble_eval (3 : ℚ) 1 (by norm_num) (by norm_num) (by norm_num)]
  unfold roundHalfEven
  norm_num

/-- `fl(1/93)` rounds up: the scaled remainder `47/93` exceeds one
half. -/
theorem roundDouble_inv93 : roundDouble ((1 : ℚ) / 93) = 6198502712940038 / 2 ^ 59 := by
  rw [@roundDouble_eval ((1 : ℚ) / 93) (-7) (by norm_num) (by norm_num) (by norm_num)]
  unfold roundHalfEven
  norm_num

/-- `fl(1 / fl(1/93))` lands one ulp below 93: the double nearest to
`2^59/6198502712940038` is `6544293208522751 / 2^46 = 93 - 2^-46`. -/
theorem roundDouble_inv_fl93 :
    roundDouble ((1 : ℚ) / (6198502712940038 / 2 ^ 59)) = 6544293208522751 / 2 ^ 46 := by
  rw [@roundDouble_eval ((1 : ℚ) / (6198502712940038 / 2 ^ 59)) 6
    (by norm_num) (by norm_num) (by norm_num)]
  unfold roundHalfEven
  norm_num

theorem roundDouble_85 : roundDouble ((8 : ℚ) / 5) = 7205759403792794 / 2 ^ 52 := by
  rw [@roundDouble_eval ((8 : ℚ) / 5) 0 (by norm_num) (by norm_num) (by norm_num)]
  unfold roundHalfEven
  norm_num

/-- `fl(3 * fl(8/5))`: the scaled significand is an exact tie and
round-half-even selects the even mantissa `5404319552844596`. -/
theorem roundDouble_3mul85 :
    roundDouble ((3 : ℚ) * (7205759403792794 / 2 ^ 52)) = 5404319552844596 / 2 ^ 50 := by
  rw [@roundDouble_eval ((3 : ℚ) * (7205759403792794 / 2 ^ 52)) 2
    (by norm_num) (by norm_num) (by norm_num)]
  unfold roundHalfEven
  norm_num

/-- The divergence instance: for a 1×93 image in a 1×93 frame CPython
computes `int(1/(1/93)) = 92`, one less than the exact value 93. -/
theorem fitScaledSize_1_93 : fitScaledSize 1 93 1 93 = (1, 92) := by
  unfold fitScaledSize toDouble
  dsimp only
  rw [show (((1 : ℕ)) : ℚ) = 1 by norm_num, show (((93 : ℕ)) : ℚ) = 93 by norm_num]
  rw [roundDouble_inv93, if_neg (lt_irrefl _), roundDouble_one, roundDouble_inv_fl93]
  rw [pyint_of_nonneg (by positivity)]
  norm_num
  decide

/-- The IEEE evaluation of the 8×5-into-3×3 instance: the wider branch
is taken and `int(3 * (8/5)) = int(4.8000000000000007) = 4`. -/
theorem fitScaledSize_8533 : fitScaledSize 8 5 3 3 = (4, 3) := by
  unfold fitScaledSize toDouble
  dsimp only
  rw [show (((8 : ℕ)) : ℚ) = 8 by norm_num, show (((5 : ℕ)) : ℚ) = 5 by norm_num,
    show (((3 : ℕ)) : ℚ) = 3 by norm_num]
  rw [roundDouble_85, show (3 : ℚ) / 3 = 1 by norm_num, roundDouble_one]
  rw [if_pos (by norm_num), roundDouble_three, roundDouble_3mul85]
  rw [pyint_of_nonneg (by positivity)]
  norm_num
  decide

/-- The scale step of both fit branches is exact at a 1×1 frame. -/
theorem fitScaledSize_1_1 : fitScaledSize 1 1 1 1 = (1, 1) := by
  unfold fitScaledSize toDouble
  dsimp only
  rw [show (((1 : ℕ)) : ℚ) = 1 by norm_num]
  rw [show (1 : ℚ) / 1 = 1 by norm_num, roundDouble_one, if_neg (lt_irrefl _),
    show (1 : ℚ) / 1 = 1 by norm_num, roundDouble_one]
  rw [pyint_of_nonneg (by norm_num)]
  norm_num

/-- Float-rounding error bound for the scaled size: each scaled
dimension falls short of the corresponding frame dimension by at most
one (the exact value dominates the frame; three roundings of relative
error `2⁻⁵³` each cannot lose a whole unit while the frame dimensions
stay below `2⁴⁰`). -/
theorem fitScaledSize_bounds_float {ow oh fw fh : ℕ} (how : 0 < ow)
    (hoh : 0 < oh) (hfw : 0 < fw) (hfh : 0 < fh)
    (hbw : fw ≤ 2 ^ 40) (hbh : fh ≤ 2 ^ 40) :
    (fw : ℤ) - 1 ≤ ((fitScaledSize ow oh fw fh).1 : ℤ) ∧
    (fh : ℤ) - 1 ≤ ((fitScaledSize ow oh fw fh).2 : ℤ) := by
  have howQ : (0 : ℚ) < (ow : ℚ) := by exact_mod_cast how
  have hohQ : (0 : ℚ) < (oh : ℚ) := by exact_mod_cast hoh
  have hfwQ : (0 : ℚ) < (fw : ℚ) := by exact_mod_cast hfw
  have hfhQ : (0 : ℚ) < (fh : ℚ) := by exact_mod_cast hfh
  have hbwQ : ((fw : ℚ)) ≤ 2 ^ 40 := by exact_mod_cast hbw
  have hbhQ : ((fh : ℚ)) ≤ 2 ^ 40 := by exact_mod_cast hbh
  unfold fitScaledSize toDouble
  dsimp only
  set Ri := roundDouble ((ow : ℚ) / (oh : ℚ)) with hRidef
  set Rf := roundDouble ((fw : ℚ) / (fh : ℚ)) with hRfdef
  have hfr0 : (0 : ℚ) < (fw : ℚ) / (fh : ℚ) := by positivity
  have hir0 : (0 : ℚ) < (ow : ℚ) / (oh : ℚ) := by positivity
  obtain ⟨hRf_lo, hRf_hi⟩ := roundDouble_bounds hfr0
  have hRi_pos : 0 < Ri := roundDouble_pos hir0
  obtain ⟨hDh_lo, _⟩ := roundDouble_bounds hfhQ
  obtain ⟨hDw_lo, _⟩ := roundDouble_bounds hfwQ
  have hDh_pos : 0 < roundDouble ((fh : ℚ)) := roundDouble_pos hfhQ
  have hDw_pos : 0 < roundDouble ((fw : ℚ)) := roundDouble_pos hfwQ
  have hRf_lo' : (fw : ℚ) * (1 - 1 / 2 ^ 53) ≤ Rf * fh := by
    have h := mul_le_mul_of_nonneg_right hRf_lo (le_of_lt hfhQ)
    calc (fw : ℚ) * (1 - 1 / 2 ^ 53) = (fw : ℚ) / (fh : ℚ) * (1 - 1 / 2 ^ 53) * fh := by
          field_simp
          ring
      _ ≤ Rf * fh := h
  have hRf_hi' : Rf * fh ≤ (fw : ℚ) * (1 + 1 / 2 ^ 53) := by
    have h := mul_le_mul_of_nonneg_right hRf_hi (le_of_lt hfhQ)
    calc Rf * fh ≤ (fw : ℚ) / (fh : ℚ) * (1 + 1 / 2 ^ 53) * fh := h
      _ = (fw : ℚ) * (1 + 1 / 2 ^ 53) := by
          field_simp
          ring
  split_ifs with hbr
  · refine ⟨?_, by omega⟩
    have hprod_pos : (0 : ℚ) < roundDouble ((fh : ℚ)) * Ri := mul_pos hDh_pos hRi_pos
    obtain ⟨hv_lo, _⟩ := roundDouble_bounds hprod_pos
    have c1 : (fw : ℚ) * (1 - 1 / 2 ^ 53) ≤ Ri * fh :=
      le_trans hRf_lo' (mul_le_mul_of_nonneg_right (le_of_lt hbr) (le_of_lt hfhQ))
    have c3 : (fw : ℚ) * (1 - 1 / 2 ^ 53) * (1 - 1 / 2 ^ 53) ≤ roundDouble ((fh : ℚ)) * Ri := by
      calc (fw : ℚ) * (1 - 1 / 2 ^ 53) * (1 - 1 / 2 ^ 53)
          ≤ Ri * fh * (1 - 1 / 2 ^ 53) :=
            mul_le_mul_of_nonneg_right c1 (by norm_num)
        _ = (fh : ℚ) * (1 - 1 / 2 ^ 53) * Ri := by ring
        _ ≤ roundDouble ((fh : ℚ)) * Ri :=
            mul_le_mul_of_nonneg_right hDh_lo (le_of_lt hRi_pos)
    have c4 : (fw : ℚ) * (1 - 1 / 2 ^ 53) * (1 - 1 / 2 ^ 53) * (1 - 1 / 2 ^ 53) ≤
        roundDouble (roundDouble ((fh : ℚ)) * Ri) := by
      calc (fw : ℚ) * (1 - 1 / 2 ^ 53) * (1 - 1 / 2 ^ 53) * (1 - 1 / 2 ^ 53)
          ≤ roundDouble ((fh : ℚ)) * Ri * (1 - 1 / 2 ^ 53) :=
            mul_le_mul_of_nonneg_right c3 (by norm_num)
        _ ≤ roundDouble (roundDouble ((fh : ℚ)) * Ri) := hv_lo
    have hv : (fw : ℚ) - 1 < roundDouble (roundDouble ((fh : ℚ)) * Ri) := by
      have c5 : (fw : ℚ) - 1 < (fw : ℚ) * (1 - 1 / 2 ^ 53) * (1 - 1 / 2 ^ 53) * (1 - 1 / 2 ^ 53) := by
        have hexp : (fw : ℚ) * (1 - 1 / 2 ^ 53) * (1 - 1 / 2 ^ 53) * (1 - 1 / 2 ^ 53) =
            (fw : ℚ) - (fw : ℚ) * (3 / 2 ^ 53 - 3 / 2 ^ 106 + 1 / 2 ^ 159) := by
          ring
        have hsm : (fw : ℚ) * (3 / 2 ^ 53 - 3 / 2 ^ 106 + 1 / 2 ^ 159) ≤
            2 ^ 40 * (3 / 2 ^ 53 - 3 / 2 ^ 106 + 1 / 2 ^ 159) :=
          mul_le_mul_of_nonneg_right hbwQ (by norm_num)
        have hlt : (2 : ℚ) ^ 40 * (3 / 2 ^ 53 - 3 / 2 ^ 106 + 1 / 2 ^ 159) < 1 := by norm_num
        rw [hexp]
        linarith
      linarith
    rw [pyint_of_nonneg (le_of_lt (roundDouble_pos hprod_pos))]
    have hfl : (fw : ℤ) - 1 ≤ ⌊roundDouble (roundDouble ((fh : ℚ)) * Ri)⌋ := by
      apply Int.le_floor.mpr
      push_cast
      linarith
    exact le_trans hfl (Int.self_le_toNat _)
  · push_neg at hbr
    refine ⟨by omega, ?_⟩
    have hq_pos : (0 : ℚ) < roundDouble ((fw : ℚ)) / Ri := div_pos hDw_pos hRi_pos
    obtain ⟨hv_lo, _⟩ := roundDouble_bounds hq_pos
    have hRi_hi : Ri * fh ≤ (fw : ℚ) * (1 + 1 / 2 ^ 53) :=
      le_trans (mul_le_mul_of_nonneg_right hbr (le_of_lt hfhQ)) hRf_hi'
    have hfh1 : (0 : ℚ) ≤ (fh : ℚ) - 1 := by
      have : (1 : ℚ) ≤ (fh : ℚ) := by exact_mod_cast hfh
      linarith
    have key : ((fh : ℚ) - 1) * (1 + 1 / 2 ^ 53) <
        (fh : ℚ) * ((1 - 1 / 2 ^ 53) * (1 - 1 / 2 ^ 53)) := by
      have hexp : (fh : ℚ) * ((1 - 1 / 2 ^ 53) * (1 - 1 / 2 ^ 53)) -
          ((fh : ℚ) - 1) * (1 + 1 / 2 ^ 53) =
          1 + 1 / 2 ^ 53 - (fh : ℚ) * (3 / 2 ^ 53 - 1 / 2 ^ 106) := by
        ring
      have hsm : (fh : ℚ) * (3 / 2 ^ 53 - 1 / 2 ^ 106) ≤
          2 ^ 40 * (3 / 2 ^ 53 - 1 / 2 ^ 106) :=
        mul_le_mul_of_nonneg_right hbhQ (by norm_num)
      have hlt : (2 : ℚ) ^ 40 * (3 / 2 ^ 53 - 1 / 2 ^ 106) < 1 := by norm_num
      linarith [hexp]
    have step3 : ((fh : ℚ) - 1) * Ri * fh < roundDouble ((fw : ℚ)) * (1 - 1 / 2 ^ 53) * fh := by
      calc ((fh : ℚ) - 1) * Ri * fh = ((fh : ℚ) - 1) * (Ri * fh) := by ring
        _ ≤ ((fh : ℚ) - 1) * ((fw : ℚ) * (1 + 1 / 2 ^ 53)) :=
            mul_le_mul_of_nonneg_left hRi_hi hfh1
        _ = (fw : ℚ) * (((fh : ℚ) - 1) * (1 + 1 / 2 ^ 53)) := by ring
        _ < (fw : ℚ) * ((fh : ℚ) * ((1 - 1 / 2 ^ 53) * (1 - 1 / 2 ^ 53))) :=
            mul_lt_mul_of_pos_left key hfwQ
        _ = (fw : ℚ) * (1 - 1 / 2 ^ 53) * (1 - 1 / 2 ^ 53) * fh := by ring
        _ ≤ roundDouble ((fw : ℚ)) * (1 - 1 / 2 ^ 53) * fh := by
            have h := mul_le_mul_of_nonneg_right hDw_lo (by norm_num :
              (0 : ℚ) ≤ 1 - 1 / 2 ^ 53)
            exact mul_le_mul_of_nonneg_right (by linarith) (le_of_lt hfhQ)
    have step4 : ((fh : ℚ) - 1) * Ri < roundDouble ((fw : ℚ)) * (1 - 1 / 2 ^ 53) :=
      lt_of_mul_lt_mul_right step3 (le_of_lt hfhQ)
    have step5 : (fh : ℚ) - 1 < roundDouble ((fw : ℚ)) / Ri * (1 - 1 / 2 ^ 53) := by
      rw [div_mul_eq_mul_div, lt_div_iff₀ hRi_pos]
      calc ((fh : ℚ) - 1) * Ri < roundDouble ((fw : ℚ)) * (1 - 1 / 2 ^ 53) := step4
        _ = roundDouble ((fw : ℚ)) * (1 - 1 / 2 ^ 53) := rfl
    have hv : (fh : ℚ) - 1 < roundDouble (roundDouble ((fw : ℚ)) / Ri) :=
      lt_of_lt_of_le step5 hv_lo
    rw [pyint_of_nonneg (le_of_lt (roundDouble_pos hq_pos))]
    have hfl : (fh : ℤ) - 1 ≤ ⌊roundDouble (roundDouble ((fw : ℚ)) / Ri)⌋ := by
      apply Int.le_floor.mpr
      push_cast
      linarith
    exact le_trans hfl (Int.self_le_toNat _)

/-- If a positive value sits strictly within one of `t`, its `int()`
truncation sits within one of `⌊t⌋`. -/
theorem pyint_toNat_sandwich {v t : ℚ} (hv : 0 < v) (hlo : t - 1 < v)
    (hhi : v < t + 1) :
    ⌊t⌋ - 1 ≤ (((pyint v).toNat : ℕ) : ℤ) ∧
    (((pyint v).toNat : ℕ) : ℤ) ≤ ⌊t⌋ + 1 := by
  rw [pyint_of_nonneg (le_of_lt hv),
    Int.toNat_of_nonneg (Int.floor_nonneg.mpr (le_of_lt hv))]
  constructor
  · have hv1 : ((⌊t⌋ - 1 : ℤ) : ℚ) ≤ v := by
      push_cast
      have := Int.floor_le t
      linarith
    have := Int.le_floor.mpr hv1
    omega
  · have hv2 : v < ((⌊t⌋ + 2 : ℤ) : ℚ) := by
      push_cast
      have := Int.lt_floor_add_one t
      linarith
    have := Int.floor_lt.mpr hv2
    omega

/-- The rational floor of a quotient of naturals is their integer
quotient. -/
theorem floor_nat_ratio (a b : ℕ) : ⌊((a : ℚ)) / ((b : ℚ))⌋ = ((a / b : ℕ) : ℤ) := by
  rw [← Int.cast_natCast a, Rat.floor_intCast_div_natCast]
  exact (Int.ofNat_ediv a b).symm

/-- An admissible kernel makes `resize` honor the requested size. -/
theorem resize_size {resample : Img → ℕ → ℕ → Img} (hres : SizedKernel resample)
    (img : Img) (w h : ℕ) :
    (resize resample img w h).width = w ∧ (resize resample img w h).height = h := by
  unfold resize
  split_ifs with hsz
  · exact ⟨hsz.1, hsz.2⟩
  · exact hres img w h

/-- The crop rectangle of `fit_image_to_frame` always has the frame's size. -/
theorem fit_image_to_frame_size (resample : Img → ℕ → ℕ → Img) (img : Img)
    (fw fh : ℕ) :
    (fit_image_to_frame resample img fw fh).width = fw ∧
      (fit_image_to_frame resample img fw fh).height = fh := by
  unfold fit_image_to_frame Img.crop
  constructor <;> simp

theorem constKernel_sized : SizedKernel constKernel := by
  intro img w h
  exact ⟨rfl, rfl⟩

/-! ### Claim theorems -/

/-- Pixel evaluation of the cover-fit of any 1×93 image into a 1×93
frame: the scaled size is 1×92 (float rounding, `fitScaledSize_1_93`),
`top = -1`, and the crop shifts everything down one row — row 0 is PIL's
transparent padding, row `y ≥ 1` samples row `y - 1` of the resampled
image (the `idKernel` resample reads the source pixel at the same
coordinates). -/
theorem fit_1_93_px (img : Img) (hw : img.width = 1) (hh : img.height = 93)
    (y : ℕ) :
    (fit_image_to_frame idKernel img 1 93).px 0 y =
      if 1 ≤ y ∧ y ≤ 92 then img.px 0 (y - 1) else Pixel.clear := by
  unfold fit_image_to_frame
  dsimp only
  rw [hw, hh, fitScaledSize_1_93]
  dsimp only
  have hrz : resize idKernel img 1 92 = idKernel img 1 92 := by
    unfold resize
    rw [if_neg]
    rintro ⟨-, hcon⟩
    rw [hh] at hcon
    exact absurd hcon (by decide)
  rw [hrz]
  unfold Img.crop idKernel
  dsimp only
  have efd : ∀ a : ℤ, a.fdiv 2 = a / 2 := fun a => Int.fdiv_eq_ediv a (by norm_num)
  simp only [efd]
  by_cases hy : 1 ≤ y ∧ y ≤ 92
  · rw [if_pos, if_pos hy]
    · congr 2 <;> omega
    · refine ⟨by omega, by omega, by omega, by omega⟩
  · rw [if_neg, if_neg hy]
    rintro ⟨-, -, hc3, hc4⟩
    omega

/-- C1 counterexample: a fully opaque 1×93 image cover-fitted into a
1×93 frame yields an output whose pixel (0,0) is the transparent fill —
a letterbox row — because CPython computes the scaled height as
`int(1/(1/93)) = 92` and the crop runs one row above the resized image.
The claimed always-no-letterboxing is false of the program. -/
theorem fit_letterboxes_cex :
    SizedKernel idKernel ∧
    0 < whiteCol.width ∧ 0 < whiteCol.height ∧
    (∀ x y : ℕ, x < whiteCol.width → y < whiteCol.height → whiteCol.px x y ≠ Pixel.clear) ∧
    (fit_image_to_frame idKernel whiteCol 1 93).width = 1 ∧
    (fit_image_to_frame idKernel whiteCol 1 93).height = 93 ∧
    (fit_image_to_frame idKernel whiteCol 1 93).px 0 0 = Pixel.clear := by
  refine ⟨fun i w h => ⟨rfl, rfl⟩, by decide, by decide,
    fun x y _ _ => by simp [whiteCol, Pixel.clear],
    (fit_image_to_frame_size idKernel whiteCol 1 93).1,
    (fit_image_to_frame_size idKernel whiteCol 1 93).2, ?_⟩
  rw [fit_1_93_px whiteCol rfl rfl 0]
  rw [if_neg (by decide)]

/-- C1 amended: for positive dimensions with the frame at most `2⁴⁰`,
the output is always exactly `frame_w × frame_h`, and every pixel off
the first row and first column is the corresponding center-crop sample
of the scaled image; letterboxing is limited to at most a one-pixel
transparent strip at the left or top, occurring only when IEEE rounding
makes a scaled dimension fall one short of the frame. -/
theorem fit_image_to_frame_covers_interior {resample : Img → ℕ → ℕ → Img}
    (hres : SizedKernel resample) (img : Img) (fw fh : ℕ)
    (h1 : 0 < img.width) (h2 : 0 < img.height) (h3 : 0 < fw) (h4 : 0 < fh)
    (hbw : fw ≤ 2 ^ 40) (hbh : fh ≤ 2 ^ 40) :
    (fit_image_to_frame resample img fw fh).width = fw ∧
    (fit_image_to_frame resample img fw fh).height = fh ∧
    ∀ x y : ℕ, 1 ≤ x → x < fw → 1 ≤ y → y < fh →
      (fit_image_to_frame resample img fw fh).px x y =
        (resize resample img (fitScaledSize img.width img.height fw fh).1
            (fitScaledSize img.width img.height fw fh).2).px
          (((((fitScaledSize img.width img.height fw fh).1 : ℤ) - (fw : ℤ)).fdiv 2 + x)).toNat
          (((((fitScaledSize img.width img.height fw fh).2 : ℤ) - (fh : ℤ)).fdiv 2 + y)).toNat := by
  obtain ⟨hb1, hb2⟩ := fitScaledSize_bounds_float h1 h2 h3 h4 hbw hbh
  obtain ⟨hrw, hrh⟩ := resize_size hres img
    (fitScaledSize img.width img.height fw fh).1
    (fitScaledSize img.width img.height fw fh).2
  refine ⟨(fit_image_to_frame_size resample img fw fh).1,
    (fit_image_to_frame_size resample img fw fh).2, ?_⟩
  intro x y hx1 hx hy1 hy
  unfold fit_image_to_frame Img.crop
  dsimp only
  rw [if_pos]
  refine ⟨?_, ?_, ?_, ?_⟩ <;>
    · rw [Int.fdiv_eq_ediv _ (by norm_num)]
      first
      | (rw [hrw]; omega)
      | (rw [hrh]; omega)
      | omega

theorem fit_image_to_frame_covers_interior_witness :
    (fit_image_to_frame constKernel unitImg 2 2).width = 2 ∧
    (fit_image_to_frame constKernel unitImg 2 2).height = 2 :=
  ⟨(fit_image_to_frame_covers_interior constKernel_sized unitImg 2 2
      (by decide) (by decide) (by decide) (by decide) (by norm_num) (by norm_num)).1,
    (fit_image_to_frame_covers_interior constKernel_sized unitImg 2 2
      (by decide) (by decide) (by decide) (by decide) (by norm_num) (by norm_num)).2.1⟩

/-- C4 counterexample: cover-fit is not idempotent.  For an opaque white
1×93 image and a 1×93 frame, float rounding scales to 1×92, so the first
fit pads a transparent top row; the second fit resamples its own output
(the sizes 93 and 92 differ again) and shifts that transparent row into
pixel (0,1), where the first output is white — the two outputs differ
pixel for pixel. -/
theorem fit_not_idempotent_cex :
    SizedKernel idKernel ∧
    0 < whiteCol.width ∧ 0 < whiteCol.height ∧
    ¬ Img.equiv
        (fit_image_to_frame idKernel (fit_image_to_frame idKernel whiteCol 1 93) 1 93)
        (fit_image_to_frame idKernel whiteCol 1 93) := by
  obtain ⟨hiw, hih⟩ := fit_image_to_frame_size idKernel whiteCol 1 93
  refine ⟨fun i w h => ⟨rfl, rfl⟩, by decide, by decide, ?_⟩
  rintro ⟨hwq, hhq, hpx⟩
  have houter :
      (fit_image_to_frame idKernel (fit_image_to_frame idKernel whiteCol 1 93) 1 93).px 0 1 =
        Pixel.clear := by
    rw [fit_1_93_px (fit_image_to_frame idKernel whiteCol 1 93) hiw hih 1,
      if_pos (by decide), show (1 : ℕ) - 1 = 0 from rfl,
      fit_1_93_px whiteCol rfl rfl 0, if_neg (by decide)]
  have hinner : (fit_image_to_frame idKernel whiteCol 1 93).px 0 1 =
      ⟨255, 255, 255, 255⟩ := by
    rw [fit_1_93_px whiteCol rfl rfl 1, if_pos (by decide)]
    rfl
  have hc1 : (0 : ℕ) <
      (fit_image_to_frame idKernel (fit_image_to_frame idKernel whiteCol 1 93) 1 93).width := by
    rw [(fit_image_to_frame_size idKernel (fit_image_to_frame idKernel whiteCol 1 93) 1 93).1]
    decide
  have hc2 : (1 : ℕ) <
      (fit_image_to_frame idKernel (fit_image_to_frame idKernel whiteCol 1 93) 1 93).height := by
    rw [(fit_image_to_frame_size idKernel (fit_image_to_frame idKernel whiteCol 1 93) 1 93).2]
    decide
  have hcontra := hpx 0 1 hc1 hc2
  rw [houter, hinner] at hcontra
  exact absurd hcontra (by decide)

/-- C4 amended: whenever the float-recomputed scaled size of a
frame-sized input equals the frame itself (the scale factor is exactly
1, which holds for most frames but fails for e.g. 1×93), re-applying
`fit_image_to_frame` reproduces its output pixel for pixel; the output
size is the frame in every case. -/
theorem fit_image_to_frame_idempotent_cond {resample : Img → ℕ → ℕ → Img}
    (hres : SizedKernel resample) (img : Img) (fw fh : ℕ)
    (h1 : 0 < img.width) (h2 : 0 < img.height) (h3 : 0 < fw) (h4 : 0 < fh)
    (hs : fitScaledSize fw fh fw fh = (fw, fh)) :
    Img.equiv
      (fit_image_to_frame resample (fit_image_to_frame resample img fw fh) fw fh)
      (fit_image_to_frame resample img fw fh) := by
  set inner := fit_image_to_frame resample img fw fh with hinner_def
  obtain ⟨hiw, hih⟩ := fit_image_to_frame_size resample img fw fh
  obtain ⟨how2, hoh2⟩ := fit_image_to_frame_size resample inner fw fh
  refine ⟨how2.trans hiw.symm, hoh2.trans hih.symm, ?_⟩
  intro x y hx hy
  rw [how2] at hx
  rw [hoh2] at hy
  unfold fit_image_to_frame
  dsimp only
  rw [hiw, hih, hs]
  dsimp only
  have hrz : resize resample inner fw fh = inner := by
    unfold resize
    rw [if_pos ⟨hiw, hih⟩]
  rw [hrz]
  unfold Img.crop
  dsimp only
  have efd : ∀ a : ℤ, a.fdiv 2 = a / 2 := fun a => Int.fdiv_eq_ediv a (by norm_num)
  simp only [efd]
  rw [if_pos]
  · congr 2 <;> omega
  · refine ⟨by omega, ?_, by omega, ?_⟩
    · rw [hiw]
      omega
    · rw [hih]
      omega

theorem fit_image_to_frame_idempotent_cond_witness :
    Img.equiv
      (fit_image_to_frame constKernel (fit_image_to_frame constKernel unitImg 1 1) 1 1)
      (fit_image_to_frame constKernel unitImg 1 1) :=
  fit_image_to_frame_idempotent_cond constKernel_sized unitImg 1 1
    (by decide) (by decide) (by decide) (by decide) fitScaledSize_1_1

/-- C9 counterexample: at a 1×93 image in a 1×93 frame the IEEE
computation gives `new_height = int(1/(1/93)) = 92`, so
`top = (92 - 93)//2 = -1 < 0` and the crop samples one row above the
resized image — the claimed `top ≥ 0` is false of the program. -/
theorem fit_crop_out_of_bounds_cex :
    (((fitScaledSize 1 93 1 93).2 : ℤ) - (93 : ℤ)).fdiv 2 < 0 := by
  rw [fitScaledSize_1_93]
  decide

/-- C9 amended: the crop rectangle lies within the resized image up to
at most one pixel of float-rounding slack on the low side:
`left ≥ -1`, `top ≥ -1`, and `left + frame_w ≤ new_width`,
`top + frame_h ≤ new_height` still hold, so the crop samples at most one
out-of-range column on the left and one out-of-range row on the top
(for frame dimensions up to `2⁴⁰`). -/
theorem fit_crop_in_bounds_slack {ow oh fw fh : ℕ} (how : 0 < ow)
    (hoh : 0 < oh) (hfw : 0 < fw) (hfh : 0 < fh)
    (hbw : fw ≤ 2 ^ 40) (hbh : fh ≤ 2 ^ 40) :
    -1 ≤ (((fitScaledSize ow oh fw fh).1 : ℤ) - (fw : ℤ)).fdiv 2 ∧
    -1 ≤ (((fitScaledSize ow oh fw fh).2 : ℤ) - (fh : ℤ)).fdiv 2 ∧
    (((fitScaledSize ow oh fw fh).1 : ℤ) - (fw : ℤ)).fdiv 2 + fw ≤
      ((fitScaledSize ow oh fw fh).1 : ℤ) ∧
    (((fitScaledSize ow oh fw fh).2 : ℤ) - (fh : ℤ)).fdiv 2 + fh ≤
      ((fitScaledSize ow oh fw fh).2 : ℤ) := by
  obtain ⟨hb1, hb2⟩ := fitScaledSize_bounds_float how hoh hfw hfh hbw hbh
  have e : ∀ a : ℤ, a.fdiv 2 = a / 2 := fun a => Int.fdiv_eq_ediv a (by norm_num)
  simp only [e]
  omega

theorem fit_crop_in_bounds_slack_witness :
    -1 ≤ (((fitScaledSize 1 93 1 93).1 : ℤ) - (1 : ℤ)).fdiv 2 :=
  (@fit_crop_in_bounds_slack 1 93 1 93 (by norm_num) (by norm_num)
    (by norm_num) (by norm_num) (by norm_num) (by norm_num)).1

/-- C3 counterexample: at an 8×5 image and a 3×3 frame the image-wider
branch is taken (`fl(8/5) > fl(3/3)`), the code's scaled width is
`int(3 * fl(8/5)) = int(4.8000000000000007) = 4`, while rounding as the
claim states would give `round(24/5) = 5`. -/
theorem fit_scaled_width_not_round :
    (roundDouble ((3 : ℚ) / 3) < roundDouble ((8 : ℚ) / 5)) ∧
    (fitScaledSize 8 5 3 3).1 = 4 ∧
    spec_round ((3 : ℚ) * ((8 : ℚ) / 5)) = 5 ∧
    ((fitScaledSize 8 5 3 3).1 : ℤ) ≠ spec_round ((3 : ℚ) * ((8 : ℚ) / 5)) := by
  have h1 : roundDouble ((3 : ℚ) / 3) < roundDouble ((8 : ℚ) / 5) := by
    rw [show (3 : ℚ) / 3 = 1 by norm_num, roundDouble_one, roundDouble_85]
    norm_num
  have h2 : (fitScaledSize 8 5 3 3).1 = 4 := by rw [fitScaledSize_8533]
  have h3 : spec_round ((3 : ℚ) * ((8 : ℚ) / 5)) = 5 := by
    unfold spec_round
    norm_num
  refine ⟨h1, h2, h3, ?_⟩
  rw [h2, h3]
  decide

/-- C3 amended: the non-matched scaled dimension is Python `int()`
truncation of the IEEE-double product/quotient, not rounding; because of
the three roundings it can differ from the exact integer quotient by at
most one in either direction: in the `imgRatio > targetRatio` branch the
scaled width is within one of `(targetH*origW) // origH` (height exactly
`targetH`), and otherwise the scaled height is within one of
`(targetW*origH) // origW` (width exactly `targetW`), for dimensions up
to `2²⁰`. -/
theorem fit_scaled_size_truncates_within_one {ow oh fw fh : ℕ}
    (how : 0 < ow) (hoh : 0 < oh) (hfw : 0 < fw) (hfh : 0 < fh)
    (hc1 : ow ≤ 2 ^ 20) (hc2 : oh ≤ 2 ^ 20) (hc3 : fw ≤ 2 ^ 20) (hc4 : fh ≤ 2 ^ 20) :
    (roundDouble ((fw : ℚ) / (fh : ℚ)) < roundDouble ((ow : ℚ) / (oh : ℚ)) →
      (fitScaledSize ow oh fw fh).2 = fh ∧
      (((fh * ow) / oh : ℕ) : ℤ) - 1 ≤ ((fitScaledSize ow oh fw fh).1 : ℤ) ∧
      ((fitScaledSize ow oh fw fh).1 : ℤ) ≤ (((fh * ow) / oh : ℕ) : ℤ) + 1) ∧
    (¬ roundDouble ((fw : ℚ) / (fh : ℚ)) < roundDouble ((ow : ℚ) / (oh : ℚ)) →
      (fitScaledSize ow oh fw fh).1 = fw ∧
      (((fw * oh) / ow : ℕ) : ℤ) - 1 ≤ ((fitScaledSize ow oh fw fh).2 : ℤ) ∧
      ((fitScaledSize ow oh fw fh).2 : ℤ) ≤ (((fw * oh) / ow : ℕ) : ℤ) + 1) := by
  have howQ : (0 : ℚ) < (ow : ℚ) := by exact_mod_cast how
  have hohQ : (0 : ℚ) < (oh : ℚ) := by exact_mod_cast hoh
  have hfwQ : (0 : ℚ) < (fw : ℚ) := by exact_mod_cast hfw
  have hfhQ : (0 : ℚ) < (fh : ℚ) := by exact_mod_cast hfh
  have hc1Q : ((ow : ℚ)) ≤ 2 ^ 20 := by exact_mod_cast hc1
  have hc2Q : ((oh : ℚ)) ≤ 2 ^ 20 := by exact_mod_cast hc2
  have hc3Q : ((fw : ℚ)) ≤ 2 ^ 20 := by exact_mod_cast hc3
  have hc4Q : ((fh : ℚ)) ≤ 2 ^ 20 := by exact_mod_cast hc4
  have hohQ1 : (1 : ℚ) ≤ (oh : ℚ) := by exact_mod_cast hoh
  have howQ1 : (1 : ℚ) ≤ (ow : ℚ) := by exact_mod_cast how
  have hir0 : (0 : ℚ) < (ow : ℚ) / (oh : ℚ) := by positivity
  obtain ⟨hRi_lo, hRi_hi⟩ := roundDouble_bounds hir0
  have hRi_pos : 0 < roundDouble ((ow : ℚ) / (oh : ℚ)) := roundDouble_pos hir0
  obtain ⟨hDh_lo, hDh_hi⟩ := roundDouble_bounds hfhQ
  obtain ⟨hDw_lo, hDw_hi⟩ := roundDouble_bounds hfwQ
  have hDh_pos : 0 < roundDouble ((fh : ℚ)) := roundDouble_pos hfhQ
  have hDw_pos : 0 < roundDouble ((fw : ℚ)) := roundDouble_pos hfwQ
  constructor
  · intro hbr
    unfold fitScaledSize toDouble
    dsimp only
    rw [if_pos hbr]
    refine ⟨rfl, ?_⟩
    set t : ℚ := (fh : ℚ) * ((ow : ℚ) / (oh : ℚ)) with htdef
    have ht_pos : 0 < t := by positivity
    have htb : t ≤ 2 ^ 40 := by
      have h1 : t ≤ (fh : ℚ) * (ow : ℚ) := by
        rw [htdef]
        exact mul_le_mul_of_nonneg_left
          (div_le_self (le_of_lt howQ) hohQ1) (le_of_lt hfhQ)
      calc t ≤ (fh : ℚ) * (ow : ℚ) := h1
        _ ≤ 2 ^ 20 * 2 ^ 20 :=
          mul_le_mul hc4Q hc1Q (le_of_lt howQ) (by norm_num)
        _ = 2 ^ 40 := by norm_num
    have hprod_pos : (0 : ℚ) < roundDouble ((fh : ℚ)) * roundDouble ((ow : ℚ) / (oh : ℚ)) :=
      mul_pos hDh_pos hRi_pos
    obtain ⟨hv_lo, hv_hi⟩ := roundDouble_bounds hprod_pos
    have hp_hi : roundDouble ((fh : ℚ)) * roundDouble ((ow : ℚ) / (oh : ℚ)) ≤
        t * ((1 + 1 / 2 ^ 53) * (1 + 1 / 2 ^ 53)) := by
      calc roundDouble ((fh : ℚ)) * roundDouble ((ow : ℚ) / (oh : ℚ))
          ≤ ((fh : ℚ) * (1 + 1 / 2 ^ 53)) * ((ow : ℚ) / (oh : ℚ) * (1 + 1 / 2 ^ 53)) :=
            mul_le_mul hDh_hi hRi_hi (le_of_lt hRi_pos) (by positivity)
        _ = t * ((1 + 1 / 2 ^ 53) * (1 + 1 / 2 ^ 53)) := by rw [htdef]; ring
    have hp_lo : t * ((1 - 1 / 2 ^ 53) * (1 - 1 / 2 ^ 53)) ≤
        roundDouble ((fh : ℚ)) * roundDouble ((ow : ℚ) / (oh : ℚ)) := by
      calc t * ((1 - 1 / 2 ^ 53) * (1 - 1 / 2 ^ 53))
          = ((fh : ℚ) * (1 - 1 / 2 ^ 53)) * ((ow : ℚ) / (oh : ℚ) * (1 - 1 / 2 ^ 53)) := by
            rw [htdef]; ring
        _ ≤ roundDouble ((fh : ℚ)) * roundDouble ((ow : ℚ) / (oh : ℚ)) :=
            mul_le_mul hDh_lo hRi_lo (by positivity) (le_of_lt hDh_pos)
    have hv_hi' : roundDouble (roundDouble ((fh : ℚ)) * roundDouble ((ow : ℚ) / (oh : ℚ))) <
        t + 1 := by
      have s1 : roundDouble (roundDouble ((fh : ℚ)) * roundDouble ((ow : ℚ) / (oh : ℚ))) ≤
          t * ((1 + 1 / 2 ^ 53) * (1 + 1 / 2 ^ 53)) * (1 + 1 / 2 ^ 53) :=
        le_trans hv_hi (mul_le_mul_of_nonneg_right hp_hi (by norm_num))
      have s2 : t * ((1 + 1 / 2 ^ 53) * (1 + 1 / 2 ^ 53)) * (1 + 1 / 2 ^ 53) =
          t + t * (((1 + 1 / 2 ^ 53) * (1 + 1 / 2 ^ 53)) * (1 + 1 / 2 ^ 53) - 1) := by
        ring
      have s3 : t * (((1 + 1 / 2 ^ 53) * (1 + 1 / 2 ^ 53)) * (1 + 1 / 2 ^ 53) - 1) ≤
          2 ^ 40 * (((1 + 1 / 2 ^ 53) * (1 + 1 / 2 ^ 53)) * (1 + 1 / 2 ^ 53) - 1) :=
        mul_le_mul_of_nonneg_right htb (by norm_num)
      have s4 : (2 : ℚ) ^ 40 * (((1 + 1 / 2 ^ 53) * (1 + 1 / 2 ^ 53)) * (1 + 1 / 2 ^ 53) - 1) < 1 := by
        norm_num
      linarith [s1, s3, s4, s2.symm.le, s2.le]
    have hv_lo' : t - 1 < roundDouble (roundDouble ((fh : ℚ)) * roundDouble ((ow : ℚ) / (oh : ℚ))) := by
      have s1 : t * ((1 - 1 / 2 ^ 53) * (1 - 1 / 2 ^ 53)) * (1 - 1 / 2 ^ 53) ≤
          roundDouble (roundDouble ((fh : ℚ)) * roundDouble ((ow : ℚ) / (oh : ℚ))) :=
        le_trans (mul_le_mul_of_nonneg_right hp_lo (by norm_num)) hv_lo
      have s2 : t * ((1 - 1 / 2 ^ 53) * (1 - 1 / 2 ^ 53)) * (1 - 1 / 2 ^ 53) =
          t - t * (1 - ((1 - 1 / 2 ^ 53) * (1 - 1 / 2 ^ 53)) * (1 - 1 / 2 ^ 53)) := by
        ring
      have s3 : t * (1 - ((1 - 1 / 2 ^ 53) * (1 - 1 / 2 ^ 53)) * (1 - 1 / 2 ^ 53)) ≤
          2 ^ 40 * (1 - ((1 - 1 / 2 ^ 53) * (1 - 1 / 2 ^ 53)) * (1 - 1 / 2 ^ 53)) :=
        mul_le_mul_of_nonneg_right htb (by norm_num)
      have s4 : (2 : ℚ) ^ 40 * (1 - ((1 - 1 / 2 ^ 53) * (1 - 1 / 2 ^ 53)) * (1 - 1 / 2 ^ 53)) < 1 := by
        norm_num
      linarith [s1, s3, s4, s2.le, s2.symm.le]
    have hfloor : ⌊t⌋ = (((fh * ow) / oh : ℕ) : ℤ) := by
      rw [htdef, show (fh : ℚ) * ((ow : ℚ) / (oh : ℚ)) = ((fh * ow : ℕ) : ℚ) / ((oh : ℚ)) by
        push_cast; ring]
      exact floor_nat_ratio (fh * ow) oh
    obtain ⟨hs1, hs2⟩ := pyint_toNat_sandwich (roundDouble_pos hprod_pos) hv_lo' hv_hi'
    rw [hfloor] at hs1 hs2
    exact ⟨hs1, hs2⟩
  · intro hbr0
    have hbr : roundDouble ((ow : ℚ) / (oh : ℚ)) ≤ roundDouble ((fw : ℚ) / (fh : ℚ)) :=
      le_of_not_lt hbr0
    unfold fitScaledSize toDouble
    dsimp only
    rw [if_neg hbr0]
    refine ⟨rfl, ?_⟩
    set t : ℚ := (fw : ℚ) * (oh : ℚ) / (ow : ℚ) with htdef
    have ht_pos : 0 < t := by positivity
    have htb : t ≤ 2 ^ 40 := by
      have h1 : t ≤ (fw : ℚ) * (oh : ℚ) :=
        div_le_self (by positivity) howQ1
      calc t ≤ (fw : ℚ) * (oh : ℚ) := h1
        _ ≤ 2 ^ 20 * 2 ^ 20 :=
          mul_le_mul hc3Q hc2Q (le_of_lt hohQ) (by norm_num)
        _ = 2 ^ 40 := by norm_num
    have hq_pos : (0 : ℚ) < roundDouble ((fw : ℚ)) / roundDouble ((ow : ℚ) / (oh : ℚ)) :=
      div_pos hDw_pos hRi_pos
    obtain ⟨hv_lo, hv_hi⟩ := roundDouble_bounds hq_pos
    have hid_hi : ((fw : ℚ) * (1 + 1 / 2 ^ 53)) / ((ow : ℚ) / (oh : ℚ) * (1 - 1 / 2 ^ 53)) =
        t * ((1 + 1 / 2 ^ 53) / (1 - 1 / 2 ^ 53)) := by
      rw [htdef]
      field_simp
      ring
    have hid_lo : ((fw : ℚ) * (1 - 1 / 2 ^ 53)) / ((ow : ℚ) / (oh : ℚ) * (1 + 1 / 2 ^ 53)) =
        t * ((1 - 1 / 2 ^ 53) / (1 + 1 / 2 ^ 53)) := by
      rw [htdef]
      field_simp
      ring
    have hq_hi : roundDouble ((fw : ℚ)) / roundDouble ((ow : ℚ) / (oh : ℚ)) ≤
        t * ((1 + 1 / 2 ^ 53) / (1 - 1 / 2 ^ 53)) := by
      rw [← hid_hi]
      exact div_le_div₀ (by positivity) hDw_hi (by positivity) hRi_lo
    have hq_lo : t * ((1 - 1 / 2 ^ 53) / (1 + 1 / 2 ^ 53)) ≤
        roundDouble ((fw : ℚ)) / roundDouble ((ow : ℚ) / (oh : ℚ)) := by
      rw [← hid_lo]
      exact div_le_div₀ (le_of_lt hDw_pos) hDw_lo hRi_pos hRi_hi
    have hv_hi' : roundDouble (roundDouble ((fw : ℚ)) / roundDouble ((ow : ℚ) / (oh : ℚ))) <
        t + 1 := by
      have s1 : roundDouble (roundDouble ((fw : ℚ)) / roundDouble ((ow : ℚ) / (oh : ℚ))) ≤
          t * ((1 + 1 / 2 ^ 53) / (1 - 1 / 2 ^ 53)) * (1 + 1 / 2 ^ 53) :=
        le_trans hv_hi (mul_le_mul_of_nonneg_right hq_hi (by norm_num))
      have s2 : t * ((1 + 1 / 2 ^ 53) / (1 - 1 / 2 ^ 53)) * (1 + 1 / 2 ^ 53) =
          t + t * ((1 + 1 / 2 ^ 53) / (1 - 1 / 2 ^ 53) * (1 + 1 / 2 ^ 53) - 1) := by
        ring
      have s3 : t * ((1 + 1 / 2 ^ 53) / (1 - 1 / 2 ^ 53) * (1 + 1 / 2 ^ 53) - 1) ≤
          2 ^ 40 * ((1 + 1 / 2 ^ 53) / (1 - 1 / 2 ^ 53) * (1 + 1 / 2 ^ 53) - 1) :=
        mul_le_mul_of_nonneg_right htb (by norm_num)
      have s4 : (2 : ℚ) ^ 40 * ((1 + 1 / 2 ^ 53) / (1 - 1 / 2 ^ 53) * (1 + 1 / 2 ^ 53) - 1) < 1 := by
        norm_num
      linarith [s1, s3, s4, s2.le, s2.symm.le]
    have hv_lo' : t - 1 <
        roundDouble (roundDouble ((fw : ℚ)) / roundDouble ((ow : ℚ) / (oh : ℚ))) := by
      have s1 : t * ((1 - 1 / 2 ^ 53) / (1 + 1 / 2 ^ 53)) * (1 - 1 / 2 ^ 53) ≤
          roundDouble (roundDouble ((fw : ℚ)) / roundDouble ((ow : ℚ) / (oh : ℚ))) :=
        le_trans (mul_le_mul_of_nonneg_right hq_lo (by norm_num)) hv_lo
      have s2 : t * ((1 - 1 / 2 ^ 53) / (1 + 1 / 2 ^ 53)) * (1 - 1 / 2 ^ 53) =
          t - t * (1 - (1 - 1 / 2 ^ 53) / (1 + 1 / 2 ^ 53) * (1 - 1 / 2 ^ 53)) := by
        ring
      have s3 : t * (1 - (1 - 1 / 2 ^ 53) / (1 + 1 / 2 ^ 53) * (1 - 1 / 2 ^ 53)) ≤
          2 ^ 40 * (1 - (1 - 1 / 2 ^ 53) / (1 + 1 / 2 ^ 53) * (1 - 1 / 2 ^ 53)) :=
        mul_le_mul_of_nonneg_right htb (by norm_num)
      have s4 : (2 : ℚ) ^ 40 * (1 - (1 - 1 / 2 ^ 53) / (1 + 1 / 2 ^ 53) * (1 - 1 / 2 ^ 53)) < 1 := by
        norm_num
      linarith [s1, s3, s4, s2.le, s2.symm.le]
    have hfloor : ⌊t⌋ = (((fw * oh) / ow : ℕ) : ℤ) := by
      rw [htdef, show (fw : ℚ) * (oh : ℚ) / (ow : ℚ) = ((fw * oh : ℕ) : ℚ) / ((ow : ℚ)) by
        push_cast; ring]
      exact floor_nat_ratio (fw * oh) ow
    obtain ⟨hs1, hs2⟩ := pyint_toNat_sandwich (roundDouble_pos hq_pos) hv_lo' hv_hi'
    rw [hfloor] at hs1 hs2
    exact ⟨hs1, hs2⟩

theorem fit_scaled_size_truncates_within_one_witness :
    (fitScaledSize 8 5 3 3).2 = 3 ∧
    (((3 * 8) / 5 : ℕ) : ℤ) - 1 ≤ ((fitScaledSize 8 5 3 3).1 : ℤ) ∧
    ((fitScaledSize 8 5 3 3).1 : ℤ) ≤ (((3 * 8) / 5 : ℕ) : ℤ) + 1 :=
  (fit_scaled_size_truncates_within_one (by norm_num) (by norm_num) (by norm_num)
      (by norm_num) (by norm_num) (by norm_num) (by norm_num) (by norm_num)).1
    (by
      push_cast
      rw [show (3 : ℚ) / 3 = 1 by norm_num, roundDouble_one, roundDouble_85]
      norm_num)

theorem pyint_toNat_le {q : ℚ} {n : ℕ} (h : q ≤ (n : ℚ)) : (pyint q).toNat ≤ n := by
  refine Int.toNat_le.mpr (le_trans ?_ (Int.ceil_le.mpr (by exact_mod_cast h)))
  unfold pyint
  split_ifs
  · exact Int.floor_le_ceil q
  · exact le_refl _

/-- Whatever the decrement loop accepts lies between the floor and its
starting size, carries its own measurement, and fits the box. -/
theorem sizeSearchLoop_some {measure : ℕ → ℕ × ℕ} {aw ah : ℤ} {minS : ℕ} :
    ∀ {start s w h : ℕ},
      sizeSearchLoop measure aw ah minS start = some (s, w, h) →
      minS ≤ s ∧ s ≤ start ∧ (w, h) = measure s ∧ fitsBox aw ah w h = true := by
  intro start
  induction start with
  | zero =>
    intro s w h hl
    unfold sizeSearchLoop at hl
    dsimp only at hl
    by_cases h0 : 0 < minS
    · rw [if_pos h0] at hl
      cases hl
    · rw [if_neg h0] at hl
      by_cases hf : fitsBox aw ah (measure 0).1 (measure 0).2 = true
      · rw [if_pos hf] at hl
        injection hl with he
        injection he with e1 e2
        injection e2 with e2 e3
        subst e1
        subst e2
        subst e3
        exact ⟨Nat.le_of_not_lt h0, le_refl 0, rfl, hf⟩
      · rw [if_neg hf] at hl
        cases hl
  | succ n ih =>
    intro s w h hl
    unfold sizeSearchLoop at hl
    dsimp only at hl
    by_cases h0 : n + 1 < minS
    · rw [if_pos h0] at hl
      cases hl
    · rw [if_neg h0] at hl
      by_cases hf : fitsBox aw ah (measure (n + 1)).1 (measure (n + 1)).2 = true
      · rw [if_pos hf] at hl
        injection hl with he
        injection he with e1 e2
        injection e2 with e2 e3
        subst e1
        subst e2
        subst e3
        exact ⟨Nat.le_of_not_lt h0, le_refl _, rfl, hf⟩
      · rw [if_neg hf] at hl
        obtain ⟨ha, hb, hc, hd⟩ := ih hl
        exact ⟨ha, Nat.le_succ_of_le hb, hc, hd⟩

/-- C2: for every measurement oracle (i.e. every text and font), every
`minSize ≤ maxSize` and every box, the Strategy B size search
terminates (it is a total function here) and returns a `chosenSize` with
`minSize ≤ chosenSize ≤ maxSize` such that either the text measured at
`chosenSize` fits both allowed dimensions or `chosenSize = minSize`. -/
theorem estimate_font_size_pil_spec (measure : ℕ → ℕ × ℕ) (maxS : ℕ)
    (aw ah : ℤ) (minS : ℕ) (hmin : minS ≤ maxS) :
    minS ≤ (estimate_font_size_pil measure maxS aw ah minS).1 ∧
    (estimate_font_size_pil measure maxS aw ah minS).1 ≤ maxS ∧
    (fitsBox aw ah (measure (estimate_font_size_pil measure maxS aw ah minS).1).1
        (measure (estimate_font_size_pil measure maxS aw ah minS).1).2 = true ∨
      (estimate_font_size_pil measure maxS aw ah minS).1 = minS) := by
  by_cases hfit : fitsBox aw ah (measure maxS).1 (measure maxS).2 = true
  · unfold estimate_font_size_pil
    dsimp only
    rw [if_pos hfit]
    exact ⟨hmin, le_refl maxS, Or.inl hfit⟩
  · have hfit' : aw < ((measure maxS).1 : ℤ) ∨ ah < ((measure maxS).2 : ℤ) := by
      by_contra hcon
      push_neg at hcon
      refine hfit ?_
      simp only [fitsBox, Bool.and_eq_true, decide_eq_true_eq]
      exact ⟨hcon.1, hcon.2⟩
    unfold estimate_font_size_pil
    dsimp only
    rw [if_neg hfit]
    set q : ℚ :=
      min (if 0 < (measure maxS).1 then (aw : ℚ) / ((measure maxS).1 : ℚ) else 1)
        (if 0 < (measure maxS).2 then (ah : ℚ) / ((measure maxS).2 : ℚ) else 1) with hqdef
    set start : ℕ := max minS (pyint ((maxS : ℚ) * q)).toNat with hstartdef
    have hscale : q ≤ 1 := by
      rw [hqdef]
      rcases hfit' with hw | hh
      · refine le_trans (min_le_left _ _) ?_
        by_cases hp : 0 < (measure maxS).1
        · rw [if_pos hp, div_le_one (by exact_mod_cast hp)]
          exact le_of_lt (by exact_mod_cast hw)
        · rw [if_neg hp]
      · refine le_trans (min_le_right _ _) ?_
        by_cases hp : 0 < (measure maxS).2
        · rw [if_pos hp, div_le_one (by exact_mod_cast hp)]
          exact le_of_lt (by exact_mod_cast hh)
        · rw [if_neg hp]
    have hstart_le : start ≤ maxS := by
      rw [hstartdef]
      exact max_le hmin (pyint_toNat_le (mul_le_of_le_one_right (by positivity) hscale))
    cases hloop : sizeSearchLoop measure aw ah minS start with
    | none =>
      dsimp only
      exact ⟨le_refl minS, hmin, Or.inr rfl⟩
    | some r =>
      obtain ⟨s, w, h⟩ := r
      obtain ⟨ha, hb, hc, hd⟩ := sizeSearchLoop_some hloop
      dsimp only
      refine ⟨ha, le_trans hb hstart_le, Or.inl ?_⟩
      rw [← hc]
      exact hd

theorem estimate_font_size_pil_spec_witness :
    2 ≤ (estimate_font_size_pil (fun s => (s, s)) 10 5 7 2).1 ∧
    (estimate_font_size_pil (fun s => (s, s)) 10 5 7 2).1 ≤ 10 ∧
    (fitsBox 5 7 ((fun s : ℕ => (s, s)) (estimate_font_size_pil (fun s => (s, s)) 10 5 7 2).1).1
        ((fun s : ℕ => (s, s)) (estimate_font_size_pil (fun s => (s, s)) 10 5 7 2).1).2 = true ∨
      (estimate_font_size_pil (fun s => (s, s)) 10 5 7 2).1 = 2) :=
  estimate_font_size_pil_spec (fun s => (s, s)) 10 5 7 2 (by decide)


/-- The regex character class and the amended spec set agree character
by character. -/
theorem isEnglishChar_eq_amended (c : Char) :
    isEnglishChar c = amendedSimpleChar c := by
  rw [Bool.eq_iff_iff]
  simp only [isEnglishChar, amendedSimpleChar, specSimpleChar, Bool.or_eq_true,
    Bool.and_eq_true, decide_eq_true_eq]
  tauto

/-- C5 counterexample: the classifier and the spec's
every-character-in-set condition disagree at two inputs: the empty
string (vacuously all of its characters are in the set, yet the code
classifies it complex-script, because the regex quantifier demands at
least one character) and the one-character string U+2019 (matched by
the regex, not in the spec's set). -/
theorem is_english_text_spec_cex :
    (¬ (is_english_text "" = true ↔ "".toList.all specSimpleChar = true)) ∧
    (¬ (is_english_text "’" = true ↔ "’".toList.all specSimpleChar = true)) ∧
    is_english_text "" = false ∧ "".toList.all specSimpleChar = true ∧
    is_english_text "’" = true ∧ "’".toList.all specSimpleChar = false := by
  decide

/-- C5 amended: a string is classified simple-script iff it is nonempty
and every character lies in the set of Latin letters, digits, space,
period, comma, apostrophe (ASCII or U+2019) and hyphen. -/
theorem is_english_text_amended (s : String) :
    is_english_text s = true ↔
      s.toList ≠ [] ∧ ∀ c ∈ s.toList, amendedSimpleChar c = true := by
  unfold is_english_text
  rw [Bool.and_eq_true, List.all_eq_true]
  have hemp : (!s.isEmpty) = true ↔ s.toList ≠ [] := by
    rw [Bool.not_eq_true']
    constructor
    · intro h hnil
      have : s = "" := String.ext hnil
      rw [this] at h
      cases h
    · intro h
      by_contra hcon
      rw [Bool.not_eq_false, String.isEmpty_iff] at hcon
      exact h (by rw [hcon]; rfl)
  constructor
  · rintro ⟨h1, h2⟩
    exact ⟨hemp.mp h1, fun c hc => (isEnglishChar_eq_amended c) ▸ h2 c hc⟩
  · rintro ⟨h1, h2⟩
    exact ⟨hemp.mpr h1, fun c hc => (isEnglishChar_eq_amended c) ▸ h2 c hc⟩

theorem is_english_text_amended_witness :
    is_english_text "Asha Rao" = true ↔
      "Asha Rao".toList ≠ [] ∧ ∀ c ∈ "Asha Rao".toList, amendedSimpleChar c = true :=
  is_english_text_amended "Asha Rao"

/-- C6: a request whose name or designation is empty or whitespace-only
is rejected before any image processing: `st.error` fires, the template
file is not opened and the uploaded photo is not decoded. -/
theorem blank_text_rejected_early (o : Oracles) (cairo : Bool) (inp : GenInput)
    (hblank : pyStripEmpty inp.name = true ∨ pyStripEmpty inp.desg = true) :
    (generateHandler o cairo inp).errorShown = true ∧
    Effect.readTemplate ∉ (generateHandler o cairo inp).effects ∧
    Effect.decodePhoto ∉ (generateHandler o cairo inp).effects := by
  unfold generateHandler
  cases hup : inp.uploaded with
  | none =>
    exact ⟨rfl, by simp, by simp⟩
  | some up =>
    dsimp only
    rcases hblank with hb | hb
    · rw [if_pos hb]
      exact ⟨rfl, by simp, by simp⟩
    · by_cases hb1 : pyStripEmpty inp.name = true
      · rw [if_pos hb1]
        exact ⟨rfl, by simp, by simp⟩
      · rw [if_neg hb1, if_pos hb]
        exact ⟨rfl, by simp, by simp⟩

/-- A request with a whitespace-only name, used as the C6 witness. -/
def blankNameInput : GenInput where
  uploaded := some unitImg
  name := "   "
  desg := "Lead Engineer"
  templateExists := true
  template := Img.transparent 1000 900

theorem blank_text_rejected_early_witness :
    (generateHandler sampleOracles true blankNameInput).errorShown = true ∧
    Effect.readTemplate ∉ (generateHandler sampleOracles true blankNameInput).effects ∧
    Effect.decodePhoto ∉ (generateHandler sampleOracles true blankNameInput).effects :=
  blank_text_rejected_early sampleOracles true blankNameInput (Or.inl (by decide))

/-- Both rendering paths produce an image of exactly the requested box
size: with cairosvg because the SVG document declares that size, without
it because the fallback canvas is created at that size. -/
theorem render_text_svg_to_image_size (o : Oracles) (cairo : Bool)
    (text font_path : String) (fs : ℕ) (fill : ℕ × ℕ × ℕ) (bw bh : ℕ) :
    (render_text_svg_to_image o cairo text font_path fs fill bw bh).width = bw ∧
    (render_text_svg_to_image o cairo text font_path fs fill bw bh).height = bh := by
  cases cairo <;> exact ⟨rfl, rfl⟩

/-- C7: when cairosvg is unavailable, text rendering falls back to the
Pillow draw path, which produces an image exactly sized to the box with
the measured text centered in it (nonnegative draw offset, text inside
the box, left/right and top/bottom margins differing by at most one
pixel), and a valid generation request still succeeds — no error, the
composed image and PNG are produced — with the non-blocking warning
shown. -/
theorem svg_unavailable_falls_back (o : Oracles) (text font_path : String)
    (fs : ℕ) (fill : ℕ × ℕ × ℕ) (bw bh : ℕ) (inp : GenInput) (up : Img)
    (hup : inp.uploaded = some up)
    (hn : pyStripEmpty inp.name = false) (hd : pyStripEmpty inp.desg = false)
    (ht : inp.templateExists = true)
    (hw : ((o.measure text font_path fs).1 : ℤ) ≤ (bw : ℤ))
    (hh : ((o.measure text font_path fs).2 : ℤ) ≤ (bh : ℤ)) :
    (render_text_svg_to_image o false text font_path fs fill bw bh).width = bw ∧
    (render_text_svg_to_image o false text font_path fs fill bw bh).height = bh ∧
    (0 ≤ ((bw : ℤ) - ((o.measure text font_path fs).1 : ℤ)).fdiv 2 ∧
      ((bw : ℤ) - ((o.measure text font_path fs).1 : ℤ)).fdiv 2 +
        ((o.measure text font_path fs).1 : ℤ) ≤ (bw : ℤ) ∧
      (bw : ℤ) - ((o.measure text font_path fs).1 : ℤ) -
        2 * (((bw : ℤ) - ((o.measure text font_path fs).1 : ℤ)).fdiv 2) ≤ 1) ∧
    (0 ≤ ((bh : ℤ) - ((o.measure text font_path fs).2 : ℤ)).fdiv 2 ∧
      ((bh : ℤ) - ((o.measure text font_path fs).2 : ℤ)).fdiv 2 +
        ((o.measure text font_path fs).2 : ℤ) ≤ (bh : ℤ) ∧
      (bh : ℤ) - ((o.measure text font_path fs).2 : ℤ) -
        2 * (((bh : ℤ) - ((o.measure text font_path fs).2 : ℤ)).fdiv 2) ≤ 1) ∧
    (generateHandler o false inp).errorShown = false ∧
    (generateHandler o false inp).warningShown = true ∧
    (generateHandler o false inp).image.isSome = true ∧
    (generateHandler o false inp).png.isSome = true := by
  have e : ∀ a : ℤ, a.fdiv 2 = a / 2 := fun a => Int.fdiv_eq_ediv a (by norm_num)
  refine ⟨rfl, rfl, ?_, ?_, ?_⟩
  · refine ⟨?_, ?_, ?_⟩ <;> (rw [e]; omega)
  · refine ⟨?_, ?_, ?_⟩ <;> (rw [e]; omega)
  · unfold generateHandler
    rw [hup]
    dsimp only
    rw [if_neg (by rw [hn]; exact Bool.false_ne_true), if_neg (by rw [hd]; exact Bool.false_ne_true),
      if_neg (by rw [ht]; simp)]
    exact ⟨rfl, rfl, rfl, rfl⟩

theorem svg_unavailable_falls_back_witness :
    (render_text_svg_to_image sampleOracles false "Ab" "f" 4 (0, 0, 0) 10 8).width = 10 ∧
    (render_text_svg_to_image sampleOracles false "Ab" "f" 4 (0, 0, 0) 10 8).height = 8 :=
  ⟨(svg_unavailable_falls_back sampleOracles "Ab" "f" 4 (0, 0, 0) 10 8 sampleInput unitImg
      rfl (by decide) (by decide) rfl (by decide) (by decide)).1,
    (svg_unavailable_falls_back sampleOracles "Ab" "f" 4 (0, 0, 0) 10 8 sampleInput unitImg
      rfl (by decide) (by decide) rfl (by decide) (by decide)).2.1⟩

/-- C8: the handler is a deterministic function of its inputs — two runs
over identical inputs (same decoded photo, same text fields, same
template and the same library kernels) produce identical composed images
and identical PNG byte outputs. -/
theorem generate_deterministic (o : Oracles) (cairo : Bool)
    (inp₁ inp₂ : GenInput) (h : inp₁ = inp₂) :
    (generateHandler o cairo inp₁).png = (generateHandler o cairo inp₂).png ∧
    (generateHandler o cairo inp₁).image = (generateHandler o cairo inp₂).image := by
  rw [h]
  exact ⟨rfl, rfl⟩

theorem generate_deterministic_witness :
    (generateHandler sampleOracles true sampleInput).png =
      (generateHandler sampleOracles true sampleInput).png ∧
    (generateHandler sampleOracles true sampleInput).image =
      (generateHandler sampleOracles true sampleInput).image :=
  generate_deterministic sampleOracles true sampleInput sampleInput rfl

/-- C10: `paste_svg_text_box` changes only pixels inside the rectangle
`[box_x1, box_x1 + (box_x2 - box_x1)) × [box_y1, box_y1 + (box_y2 - box_y1))`;
it preserves the base image's dimensions and leaves every pixel outside
that rectangle unchanged. -/
theorem paste_svg_text_box_frame (o : Oracles) (cairo : Bool) (base : Img)
    (text font_path : String) (max_font_size : ℕ) (x1 x2 y1 y2 : ℤ)
    (color : ℕ × ℕ × ℕ) :
    (paste_svg_text_box o cairo base text font_path max_font_size x1 x2 y1 y2 color).width
        = base.width ∧
    (paste_svg_text_box o cairo base text font_path max_font_size x1 x2 y1 y2 color).height
        = base.height ∧
    ∀ x y : ℕ,
      ((x : ℤ) < x1 ∨ x1 + (x2 - x1) ≤ (x : ℤ) ∨ (y : ℤ) < y1 ∨ y1 + (y2 - y1) ≤ (y : ℤ)) →
      (paste_svg_text_box o cairo base text font_path max_font_size x1 x2 y1 y2 color).px x y
        = base.px x y := by
  refine ⟨rfl, rfl, ?_⟩
  intro x y hout
  unfold paste_svg_text_box Img.pasteMask
  dsimp only
  rw [if_neg]
  rintro ⟨c1, c2, c3, c4⟩
  rw [(render_text_svg_to_image_size o cairo text font_path
    (estimate_font_size_pil (o.measure text font_path) max_font_size
      (x2 - x1) (y2 - y1) 6).1 color (x2 - x1).toNat (y2 - y1).toNat).1] at c2
  rw [(render_text_svg_to_image_size o cairo text font_path
    (estimate_font_size_pil (o.measure text font_path) max_font_size
      (x2 - x1) (y2 - y1) 6).1 color (x2 - x1).toNat (y2 - y1).toNat).2] at c4
  omega

theorem paste_svg_text_box_frame_witness :
    (paste_svg_text_box sampleOracles true (Img.transparent 5 5) "A" "f" 56
        1 3 1 3 (0, 0, 0)).px 0 0 = (Img.transparent 5 5).px 0 0 :=
  (paste_svg_text_box_frame sampleOracles true (Img.transparent 5 5) "A" "f" 56
    1 3 1 3 (0, 0, 0)).2.2 0 0 (Or.inl (by decide))

end GLF
